import Mathlib

/-
Verification of the Stages API pipeline (pulpcore/plugin/stages/api.py).

The asynchronous generators and the event loop are embedded shallowly:
the inbound queue of a stage is modelled as the list of values it will
deliver, in delivery order; the points where `get_nowait` raises
`QueueEmpty` are an environment choice, modelled by an explicit schedule;
coroutine supervision in `create_pipeline` is modelled by the list of task
states at the moment `asyncio.gather` settles, together with the exception
it raised, and by an explicit trace of supervisory events.
-/

namespace PulpStages

/-- A content item flowing through the pipeline.  The pipeline only
inspects the `does_batch` flag; the `id` field stands for object identity
so that distinct items can be told apart. -/
structure DeclarativeContent where
  id : Nat
  does_batch : Bool
deriving DecidableEq

/-- The state of one run of `Stage.batches`: the current `batch` list and
the `shutdown` / `no_block` flags of the source. -/
structure BState where
  batch : List DeclarativeContent
  shutdown : Bool
  no_block : Bool
deriving DecidableEq

/-- Embedding of the local function `add_to_batch` inside `Stage.batches`:
receiving `None` sets `shutdown`; any other content is appended to the
batch, and a non-batchable content additionally sets `no_block`. -/
def add_to_batch (s : BState) (content : Option DeclarativeContent) : BState :=
  match content with
  | none => { s with shutdown := true }
  | some c =>
      { s with
        no_block := (!c.does_batch) || s.no_block,
        batch := s.batch ++ [c] }

/-- Embedding of the inner `get_nowait` loop of `Stage.batches`.  The
environment decides when `QueueEmpty` is raised; `k` bounds the number of
successful non-blocking receives it allows in this round.  As in the
source, the loop stops as soon as `shutdown` is set, and it also stops
when the delivery stream `l` is exhausted. -/
def drainLoop : Nat → BState → List (Option DeclarativeContent) →
    BState × List (Option DeclarativeContent)
  | 0, s, l => (s, l)
  | k + 1, s, l =>
    if s.shutdown then (s, l)
    else
      match l with
      | [] => (s, [])
      | c :: rest => drainLoop k (add_to_batch s c) rest

/-- Embedding of the emission test of `Stage.batches`:
`if batch and (len(batch) >= minsize or shutdown or no_block)`. -/
def emitCond (minsize : Nat) (s : BState) : Bool :=
  (!s.batch.isEmpty) && (decide (minsize ≤ s.batch.length) || s.shutdown || s.no_block)

/-- The non-blocking loop never lengthens the unconsumed stream. -/
lemma drainLoop_length (k : Nat) (s : BState) (l : List (Option DeclarativeContent)) :
    (drainLoop k s l).2.length ≤ l.length := by
  induction k generalizing s l with
  | zero => exact Nat.le_refl _
  | succ k ih =>
    by_cases hs : s.shutdown = true
    · simp [drainLoop, hs]
    · cases l with
      | nil => simp [drainLoop, hs]
      | cons c rest =>
        have h := ih (add_to_batch s c) rest
        simp only [drainLoop, hs, if_false, List.length_cons, Bool.false_eq_true]
        omega

/-- Embedding of the outer `while not shutdown` loop of `Stage.batches`.
`l` is the stream of values the inbound queue will deliver, `sched` is the
environment's choice of how many non-blocking receives succeed in each
round, and `b` / `nb` are the carried `batch` and `no_block` variables.
Each round performs one blocking receive, drains the queue without
blocking, and yields the batch exactly when the source's emission test
holds; after an emission `batch` and `no_block` are reset, and `shutdown`
ends the loop. -/
def batchesModel (minsize : Nat) (l : List (Option DeclarativeContent))
    (sched : List Nat) (b : List DeclarativeContent) (nb : Bool) :
    List (List DeclarativeContent) :=
  match l with
  | [] => []
  | c :: rest =>
    let s2 := (drainLoop (sched.headD 0) (add_to_batch ⟨b, false, nb⟩ c) rest).1
    let rest2 := (drainLoop (sched.headD 0) (add_to_batch ⟨b, false, nb⟩ c) rest).2
    if emitCond minsize s2 then
      if s2.shutdown then [s2.batch]
      else s2.batch :: batchesModel minsize rest2 sched.tail [] false
    else
      if s2.shutdown then []
      else batchesModel minsize rest2 sched.tail s2.batch s2.no_block
termination_by l.length
decreasing_by
  all_goals
    simp only [List.length_cons]
    have h := drainLoop_length (sched.headD 0) (add_to_batch ⟨b, false, nb⟩ c) rest
    omega

/-- The items of a stream that precede its first sentinel. -/
def takeUntilNone : List (Option DeclarativeContent) → List DeclarativeContent
  | [] => []
  | none :: _ => []
  | some c :: rest => c :: takeUntilNone rest

lemma takeUntilNone_append_none (items : List DeclarativeContent)
    (junk : List (Option DeclarativeContent)) :
    takeUntilNone (items.map some ++ none :: junk) = items := by
  induction items with
  | nil => rfl
  | cons c rest ih => simp [takeUntilNone, ih]

/-- Once `shutdown` is set the non-blocking loop does nothing. -/
lemma drainLoop_of_shutdown (k : Nat) (s : BState) (l : List (Option DeclarativeContent))
    (hs : s.shutdown = true) : drainLoop k s l = (s, l) := by
  cases k with
  | zero => rfl
  | succ k => simp [drainLoop, hs]

/-- What the non-blocking loop consumes: if it hits the sentinel it has
appended exactly the items before the first sentinel; otherwise every
consumed value was an item, and the sentinel (when present) is still in
the unconsumed stream. -/
lemma drainLoop_spec (k : Nat) (s : BState) (l : List (Option DeclarativeContent))
    (hs : s.shutdown = false) :
    ((drainLoop k s l).1.shutdown = true ∧
        (drainLoop k s l).1.batch = s.batch ++ takeUntilNone l) ∨
    ((drainLoop k s l).1.shutdown = false ∧
        (drainLoop k s l).1.batch ++ takeUntilNone (drainLoop k s l).2 =
          s.batch ++ takeUntilNone l ∧
        (none ∈ l → none ∈ (drainLoop k s l).2)) := by
  induction k generalizing s l with
  | zero =>
    right
    exact ⟨hs, rfl, fun h => h⟩
  | succ k ih =>
    cases l with
    | nil =>
      right
      refine ⟨by simp [drainLoop, hs], ?_, ?_⟩
      · simp [drainLoop, hs]
      · intro h
        simp at h
    | cons c rest =>
      cases c with
      | none =>
        left
        have hstep : drainLoop (k + 1) s (none :: rest) =
            (add_to_batch s none, rest) := by
          simp [drainLoop, hs, add_to_batch, drainLoop_of_shutdown]
        rw [hstep]
        simp [add_to_batch, takeUntilNone]
      | some x =>
        have hsx : (add_to_batch s (some x)).shutdown = false := by
          simp [add_to_batch, hs]
        have hstep : drainLoop (k + 1) s (some x :: rest) =
            drainLoop k (add_to_batch s (some x)) rest := by
          simp [drainLoop, hs]
        have hbx : (add_to_batch s (some x)).batch = s.batch ++ [x] := by
          simp [add_to_batch]
        rw [hstep]
        rcases ih (add_to_batch s (some x)) rest hsx with ⟨ha, hb⟩ | ⟨ha, hb, hc⟩
        · left
          refine ⟨ha, ?_⟩
          rw [hb, hbx, takeUntilNone]
          simp
        · right
          refine ⟨ha, ?_, ?_⟩
          · rw [hb, hbx, takeUntilNone]
            simp
          · intro h
            rcases List.mem_cons.mp h with h | h
            · simp at h
            · exact hc h

/-- Join of all emitted batches: whatever the schedule, the batches
emitted by the loop concatenate to the carried batch followed by the
items that precede the stream's sentinel. -/
lemma batchesModel_join_aux (minsize : Nat) :
    ∀ (n : Nat) (l : List (Option DeclarativeContent)), l.length ≤ n → none ∈ l →
      ∀ (sched : List Nat) (b : List DeclarativeContent) (nb : Bool),
        (batchesModel minsize l sched b nb).flatten = b ++ takeUntilNone l := by
  intro n
  induction n with
  | zero =>
    intro l hl hnone sched b nb
    have hnil : l = [] := List.eq_nil_of_length_eq_zero (Nat.le_zero.mp hl)
    subst hnil
    simp at hnone
  | succ n ih =>
    intro l hl hnone sched b nb
    cases l with
    | nil => simp at hnone
    | cons c rest =>
      cases c with
      | none =>
        have hadd : add_to_batch ⟨b, false, nb⟩ none = ⟨b, true, nb⟩ := rfl
        have hdl1 : (drainLoop (sched.headD 0)
            (add_to_batch ⟨b, false, nb⟩ none) rest).1 = ⟨b, true, nb⟩ := by
          rw [hadd, drainLoop_of_shutdown _ _ _ rfl]
        rw [batchesModel, hdl1]
        by_cases hb : b = []
        · subst hb
          simp [emitCond, takeUntilNone]
        · have hcond : emitCond minsize ⟨b, true, nb⟩ = true := by
            simp [emitCond, hb]
          rw [if_pos hcond, if_pos rfl]
          simp [takeUntilNone]
      | some x =>
        have hsx : (add_to_batch ⟨b, false, nb⟩ (some x)).shutdown = false := rfl
        have hbx : (add_to_batch ⟨b, false, nb⟩ (some x)).batch = b ++ [x] := rfl
        have hrest : none ∈ rest := by
          rcases List.mem_cons.mp hnone with h | h
          · simp at h
          · exact h
        have hspec := drainLoop_spec (sched.headD 0)
          (add_to_batch ⟨b, false, nb⟩ (some x)) rest hsx
        have hlen2 := drainLoop_length (sched.headD 0)
          (add_to_batch ⟨b, false, nb⟩ (some x)) rest
        obtain ⟨s2, rest2, hdl1, hdl2⟩ :
            ∃ s r, (drainLoop (sched.headD 0)
                (add_to_batch ⟨b, false, nb⟩ (some x)) rest).1 = s ∧
              (drainLoop (sched.headD 0)
                (add_to_batch ⟨b, false, nb⟩ (some x)) rest).2 = r := ⟨_, _, rfl, rfl⟩
        rw [batchesModel, hdl1, hdl2]
        rw [hdl1, hdl2] at hspec
        rw [hdl2] at hlen2
        rw [hbx] at hspec
        rcases hspec with ⟨ha, hb2⟩ | ⟨ha, hb2, hc2⟩
        · -- the sentinel was consumed in this round: final emission
          have hne : s2.batch ≠ [] := by
            rw [hb2]
            simp
          have hcond : emitCond minsize s2 = true := by
            simp [emitCond, ha, hne]
          rw [if_pos hcond, if_pos ha]
          simp [hb2, takeUntilNone]
        · -- the round ends with the sentinel still unconsumed
          have hmem := hc2 hrest
          have hlen3 : rest2.length ≤ n := by
            simp only [List.length_cons] at hl
            omega
          have hsd : ¬ s2.shutdown = true := by
            simp [ha]
          by_cases hcond : emitCond minsize s2 = true
          · rw [if_pos hcond, if_neg hsd]
            rw [List.flatten_cons, ih _ hlen3 hmem sched.tail [] false, List.nil_append, hb2]
            simp [takeUntilNone]
          · rw [if_neg hcond, if_neg hsd]
            rw [ih _ hlen3 hmem sched.tail _ _, hb2]
            simp [takeUntilNone]

/-- C2: feeding any finite sequence of items followed by the sentinel into
a stage's inbound queue, the concatenation of all lists yielded by
`Stage.batches` is exactly that sequence in its original order — no drop,
duplication, or reordering — for every minimum size and every environment
schedule of non-blocking receives; in particular the final batch is
emitted at the sentinel even when smaller than `minsize`, since nothing is
retained. -/
theorem batches_concat_exact (minsize : Nat) (items : List DeclarativeContent)
    (sched : List Nat) :
    (batchesModel minsize (items.map some ++ [none]) sched [] false).flatten = items := by
  have h := batchesModel_join_aux minsize (items.length + 1) (items.map some ++ [none])
    (by simp) (by simp) sched [] false
  simpa [takeUntilNone_append_none items []] using h

/-- `no_block` is only ever set together with an append, so a state whose
batch is non-empty whenever `no_block` is set keeps that property through
`add_to_batch`. -/
lemma add_to_batch_nb_nonempty (s : BState) (c : Option DeclarativeContent)
    (h : s.no_block = true → s.batch ≠ []) :
    (add_to_batch s c).no_block = true → (add_to_batch s c).batch ≠ [] := by
  cases c with
  | none => simpa [add_to_batch] using h
  | some x => simp [add_to_batch]

/-- The non-blocking loop preserves the property that a set `no_block`
flag witnesses a non-empty batch. -/
lemma drainLoop_nb_nonempty (k : Nat) (s : BState) (l : List (Option DeclarativeContent))
    (h : s.no_block = true → s.batch ≠ []) :
    (drainLoop k s l).1.no_block = true → (drainLoop k s l).1.batch ≠ [] := by
  induction k generalizing s l with
  | zero => exact h
  | succ k ih =>
    by_cases hs : s.shutdown = true
    · rw [drainLoop_of_shutdown _ _ _ hs]
      exact h
    · cases l with
      | nil =>
        have hstep : drainLoop (k + 1) s [] = (s, []) := by simp [drainLoop, hs]
        rw [hstep]
        exact h
      | cons c rest =>
        have hstep : drainLoop (k + 1) s (c :: rest) =
            drainLoop k (add_to_batch s c) rest := by
          simp [drainLoop, hs]
        rw [hstep]
        exact ih _ _ (add_to_batch_nb_nonempty s c h)

/-- If the non-blocking loop ends with `no_block` clear, it was clear all
along and every batch item was either carried in or batchable. -/
lemma drainLoop_nb_false (k : Nat) (s : BState) (l : List (Option DeclarativeContent))
    (h : (drainLoop k s l).1.no_block = false) :
    s.no_block = false ∧
      ∀ c ∈ (drainLoop k s l).1.batch, c ∈ s.batch ∨ c.does_batch = true := by
  induction k generalizing s l with
  | zero => exact ⟨h, fun c hc => Or.inl hc⟩
  | succ k ih =>
    by_cases hs : s.shutdown = true
    · rw [drainLoop_of_shutdown _ _ _ hs] at h ⊢
      exact ⟨h, fun c hc => Or.inl hc⟩
    · cases l with
      | nil =>
        have hstep : drainLoop (k + 1) s [] = (s, []) := by simp [drainLoop, hs]
        rw [hstep] at h ⊢
        exact ⟨h, fun c hc => Or.inl hc⟩
      | cons c rest =>
        have hstep : drainLoop (k + 1) s (c :: rest) =
            drainLoop k (add_to_batch s c) rest := by
          simp [drainLoop, hs]
        rw [hstep] at h ⊢
        obtain ⟨h1, h2⟩ := ih (add_to_batch s c) rest h
        cases c with
        | none => exact ⟨h1, fun x hx => h2 x hx⟩
        | some y =>
          have hnb : (add_to_batch s (some y)).no_block = ((!y.does_batch) || s.no_block) :=
            rfl
          rw [hnb] at h1
          have hy : y.does_batch = true := by
            cases hdb : y.does_batch
            · rw [hdb] at h1
              simp at h1
            · rfl
          have hsnb : s.no_block = false := by
            cases hsb : s.no_block
            · rfl
            · rw [hsb] at h1
              simp at h1
          refine ⟨hsnb, ?_⟩
          intro x hx
          rcases h2 x hx with hmem | hb
          · have hin2 : x ∈ s.batch ++ [y] := hmem
            rcases List.mem_append.mp hin2 with h3 | h3
            · exact Or.inl h3
            · have hxy : x = y := by simpa using h3
              rw [hxy]
              exact Or.inr hy
          · exact Or.inr hb

/-- C4: whenever the round just performed by `Stage.batches` appended a
non-batchable item — that is exactly when its `no_block` flag ended up
set — the batch containing that item is emitted at the end of that same
collection round, as the very next yielded batch, with no minimum-size
requirement: the item is never held back to a later round. -/
theorem batches_force_flush (minsize : Nat) (sched : List Nat)
    (b : List DeclarativeContent) (v : Option DeclarativeContent)
    (rest : List (Option DeclarativeContent))
    (hnb : (drainLoop (sched.headD 0) (add_to_batch ⟨b, false, false⟩ v) rest).1.no_block
      = true) :
    (drainLoop (sched.headD 0) (add_to_batch ⟨b, false, false⟩ v) rest).1.batch ≠ [] ∧
    (batchesModel minsize (v :: rest) sched b false).head? =
      some (drainLoop (sched.headD 0) (add_to_batch ⟨b, false, false⟩ v) rest).1.batch := by
  have hinv : (add_to_batch ⟨b, false, false⟩ v).no_block = true →
      (add_to_batch ⟨b, false, false⟩ v).batch ≠ [] := by
    refine add_to_batch_nb_nonempty _ _ ?_
    intro h2
    simp at h2
  have hne := drainLoop_nb_nonempty (sched.headD 0) _ rest hinv
  obtain ⟨s2, rest2, hdl1, hdl2⟩ :
      ∃ s r, (drainLoop (sched.headD 0) (add_to_batch ⟨b, false, false⟩ v) rest).1 = s ∧
        (drainLoop (sched.headD 0) (add_to_batch ⟨b, false, false⟩ v) rest).2 = r :=
    ⟨_, _, rfl, rfl⟩
  rw [hdl1] at hnb hne ⊢
  have hne2 : s2.batch ≠ [] := hne hnb
  have hcond : emitCond minsize s2 = true := by
    simp [emitCond, hne2, hnb]
  refine ⟨hne2, ?_⟩
  rw [batchesModel, hdl1, hdl2, if_pos hcond]
  by_cases hsd : s2.shutdown = true
  · rw [if_pos hsd]
    rfl
  · rw [if_neg hsd]
    rfl

/-- C7: a collection round that receives a non-batchable item and then
the sentinel ends with both the stream-ending and the force-flush
conditions set, and `Stage.batches` emits exactly one batch for that
round — the source's single yield — not two. -/
theorem batches_single_emit_on_end_and_flush (minsize : Nat) (sched : List Nat)
    (b : List DeclarativeContent) (c : DeclarativeContent)
    (junk : List (Option DeclarativeContent))
    (hc : c.does_batch = false) (hk : 1 ≤ sched.headD 0) :
    ((drainLoop (sched.headD 0) (add_to_batch ⟨b, false, false⟩ (some c))
        (none :: junk)).1.shutdown = true ∧
      (drainLoop (sched.headD 0) (add_to_batch ⟨b, false, false⟩ (some c))
        (none :: junk)).1.no_block = true) ∧
    batchesModel minsize (some c :: none :: junk) sched b false = [b ++ [c]] := by
  obtain ⟨k, hk2⟩ : ∃ k, sched.headD 0 = k + 1 := ⟨sched.headD 0 - 1, by omega⟩
  have hadd : add_to_batch ⟨b, false, false⟩ (some c) = ⟨b ++ [c], false, true⟩ := by
    simp [add_to_batch, hc]
  have hdl : drainLoop (sched.headD 0) (add_to_batch ⟨b, false, false⟩ (some c))
      (none :: junk) = (⟨b ++ [c], true, true⟩, junk) := by
    rw [hk2, hadd]
    have hstep : drainLoop (k + 1) (⟨b ++ [c], false, true⟩ : BState) (none :: junk) =
        drainLoop k (⟨b ++ [c], true, true⟩ : BState) junk := by
      simp [drainLoop, add_to_batch]
    rw [hstep, drainLoop_of_shutdown _ _ _ rfl]
  have hdl1 : (drainLoop (sched.headD 0) (add_to_batch ⟨b, false, false⟩ (some c))
      (none :: junk)).1 = ⟨b ++ [c], true, true⟩ := by rw [hdl]
  have hdl2 : (drainLoop (sched.headD 0) (add_to_batch ⟨b, false, false⟩ (some c))
      (none :: junk)).2 = junk := by rw [hdl]
  constructor
  · rw [hdl1]
    exact ⟨rfl, rfl⟩
  · have hcond : emitCond minsize (⟨b ++ [c], true, true⟩ : BState) = true := by
      simp [emitCond]
    rw [batchesModel, hdl1, hdl2, if_pos hcond, if_pos rfl]

/-- The carried (batch, `no_block`) pairs that `Stage.batches` can hold
at a round boundary: initially both are empty and clear (this is also the
state right after any emission), and a round that ends without an
emission and without shutdown carries its final state into the next
round. -/
inductive CarryReach (minsize : Nat) : List DeclarativeContent → Bool → Prop where
  | init : CarryReach minsize [] false
  | step (b : List DeclarativeContent) (nb : Bool) (v : Option DeclarativeContent)
      (rest : List (Option DeclarativeContent)) (k : Nat)
      (hprev : CarryReach minsize b nb)
      (hnoemit : emitCond minsize (drainLoop k (add_to_batch ⟨b, false, nb⟩ v) rest).1
        = false)
      (hrun : (drainLoop k (add_to_batch ⟨b, false, nb⟩ v) rest).1.shutdown = false) :
      CarryReach minsize (drainLoop k (add_to_batch ⟨b, false, nb⟩ v) rest).1.batch
        (drainLoop k (add_to_batch ⟨b, false, nb⟩ v) rest).1.no_block

/-- Master invariant of the carried state: only batchable items, empty or
below the minimum size, and the `no_block` flag clear. -/
lemma carry_invariant (minsize : Nat) (b : List DeclarativeContent) (nb : Bool)
    (h : CarryReach minsize b nb) :
    (∀ c ∈ b, c.does_batch = true) ∧ (b = [] ∨ b.length < minsize) ∧ nb = false := by
  induction h with
  | init => exact ⟨by simp, Or.inl rfl, rfl⟩
  | step b nb v rest k hprev hnoemit hrun ih =>
    obtain ⟨hbat, hlen, hnbf⟩ := ih
    subst hnbf
    obtain ⟨s2, hdl1⟩ :
        ∃ s, (drainLoop k (add_to_batch ⟨b, false, false⟩ v) rest).1 = s := ⟨_, rfl⟩
    rw [hdl1] at hnoemit hrun ⊢
    have hinv : (add_to_batch ⟨b, false, false⟩ v).no_block = true →
        (add_to_batch ⟨b, false, false⟩ v).batch ≠ [] := by
      refine add_to_batch_nb_nonempty _ _ ?_
      intro h2
      simp at h2
    have hnn := drainLoop_nb_nonempty k _ rest hinv
    rw [hdl1] at hnn
    have hnb2 : s2.no_block = false := by
      cases hx : s2.no_block
      · rfl
      · exfalso
        have hne := hnn hx
        have hcond : emitCond minsize s2 = true := by
          simp [emitCond, hne, hx]
        rw [hcond] at hnoemit
        simp at hnoemit
    have hmems := drainLoop_nb_false k (add_to_batch ⟨b, false, false⟩ v) rest
      (by rw [hdl1]; exact hnb2)
    rw [hdl1] at hmems
    obtain ⟨haddnb, hmem⟩ := hmems
    have hbat2 : ∀ c ∈ s2.batch, c.does_batch = true := by
      intro c hc
      rcases hmem c hc with hin | hdb
      · cases v with
        | none => exact hbat c hin
        | some y =>
          have hy : y.does_batch = true := by
            have h4 : ((!y.does_batch) || false) = false := haddnb
            cases hdb2 : y.does_batch
            · rw [hdb2] at h4
              simp at h4
            · rfl
          have hin2 : c ∈ b ++ [y] := hin
          rcases List.mem_append.mp hin2 with h3 | h3
          · exact hbat c h3
          · have hxy : c = y := by simpa using h3
            rw [hxy]
            exact hy
      · exact hdb
    refine ⟨hbat2, ?_, hnb2⟩
    by_cases hbe : s2.batch = []
    · exact Or.inl hbe
    · right
      have hcf : emitCond minsize s2 = false := hnoemit
      simp [emitCond, hbe, hrun, hnb2] at hcf
      omega

/-- C10: invariant of `Stage.batches` — whenever a collection round ends
without an emission, the carried batch, if non-empty, contains only
batchable items and is strictly shorter than `minsize`; equivalently, an
item is only ever delayed past its own round when it is batchable and its
pending batch is below the minimum size. -/
theorem batches_carry_small_and_batchable (minsize : Nat)
    (b : List DeclarativeContent) (nb : Bool)
    (h : CarryReach minsize b nb) (hne : b ≠ []) :
    (∀ c ∈ b, c.does_batch = true) ∧ b.length < minsize := by
  obtain ⟨h1, h2, h3⟩ := carry_invariant minsize b nb h
  exact ⟨h1, h2.resolve_left hne⟩

/-- Embedding of `Stage.items`: values are read from the inbound stream
one at a time and yielded until the first sentinel, which ends the
iteration without being yielded; later values are never read. -/
def itemsModel : List (Option DeclarativeContent) → List DeclarativeContent
  | [] => []
  | none :: _ => []
  | some c :: rest => c :: itemsModel rest

/-- C9: `items()` yields exactly the items received before the sentinel,
one at a time, in the exact order received; it terminates on the
end-of-stream marker without yielding it, and values enqueued after the
sentinel are never yielded. -/
theorem items_yields_in_order (xs : List DeclarativeContent)
    (junk : List (Option DeclarativeContent)) :
    itemsModel (xs.map some ++ none :: junk) = xs := by
  induction xs with
  | nil => rfl
  | cons c rest ih => simp [itemsModel, ih]

/-- The error raised by `Stage.put` on the sentinel value
(`ValueError: (None) not permitted.`). -/
inductive PutErr where
  | noneNotPermitted
deriving DecidableEq

/-- Embedding of `Stage.put`: returns the outbound queue after the call
together with the raised error, if any.  The sentinel is rejected before
anything is enqueued; any other item is appended to the outbound
queue. -/
def putModel (out_q : List (Option DeclarativeContent))
    (item : Option DeclarativeContent) :
    List (Option DeclarativeContent) × Option PutErr :=
  match item with
  | none => (out_q, some PutErr.noneNotPermitted)
  | some c => (out_q ++ [some c], none)

/-- C6: `put` raises the invalid-item error exactly when handed the
sentinel, in which case the outbound queue is unchanged; otherwise the
item itself is enqueued on the outbound queue. -/
theorem put_rejects_sentinel_only (q : List (Option DeclarativeContent))
    (item : Option DeclarativeContent) :
    ((putModel q item).2 = some PutErr.noneNotPermitted ↔ item = none) ∧
    (item = none → (putModel q item).1 = q) ∧
    (∀ c, item = some c → (putModel q item).1 = q ++ [some c]) := by
  cases item with
  | none => simp [putModel]
  | some c => simp [putModel]

/-- The failure of the base `Stage.__call__` when there is no outbound
queue: `self._out_q` is `None`, so `self._out_q.put(None)` raises an
attribute error instead of completing. -/
inductive CallErr where
  | noOutQueue
deriving DecidableEq

/-- Embedding of the tail of the base `Stage.__call__` once `run()` has
returned without failure: `await self._out_q.put(None)` unconditionally
appends a single sentinel to the outbound queue, and therefore fails when
the stage has no outbound queue. -/
def stageCallFinish (out_q : Option (List (Option DeclarativeContent))) :
    Except CallErr (List (Option DeclarativeContent)) :=
  match out_q with
  | none => Except.error CallErr.noOutQueue
  | some q => Except.ok (q ++ [none])

/-- Embedding of `EndStage.__call__`: it drains its inbound queue through
`items()` and never touches an outbound queue.  The first component is
what was drained and discarded; the second is the untouched outbound
queue. -/
def endStageCall (in_q : List (Option DeclarativeContent))
    (out_q : Option (List (Option DeclarativeContent))) :
    List DeclarativeContent × Option (List (Option DeclarativeContent)) :=
  (itemsModel in_q, out_q)

/-- C5 counterexample: a base-class stage with no outbound channel does
not complete without attempting the marker send — the unconditional
`self._out_q.put(None)` in `Stage.__call__` fails on the absent queue
(only `EndStage` overrides `__call__` to avoid this, as its own comment
states). -/
theorem stage_call_no_out_queue_fails :
    stageCallFinish none = Except.error CallErr.noOutQueue := rfl

/-- C5 (amended): after `run()` returns without failure, the base
`Stage.__call__` sends exactly one end-of-stream marker on the outbound
channel when one exists and then completes; a base stage with no outbound
channel fails rather than completing; and the terminal `EndStage`
overrides the wrapper, draining its input and terminating without sending
anything. -/
theorem stage_call_single_marker (q : List (Option DeclarativeContent))
    (in_q : List (Option DeclarativeContent))
    (oq : Option (List (Option DeclarativeContent))) :
    stageCallFinish (some q) = Except.ok (q ++ [none]) ∧
    (endStageCall in_q oq).2 = oq ∧
    (endStageCall in_q oq).1 = itemsModel in_q :=
  ⟨rfl, rfl, rfl⟩

/-- A bounded channel allocated by `create_pipeline`, identified by its
position (channel `i` links stage `i` to stage `i + 1`) and carrying its
capacity (the `maxsize` passed to `asyncio.Queue`). -/
structure Chan where
  id : Nat
  capacity : Nat
deriving DecidableEq

/-- The errors `create_pipeline` can raise in this model. -/
inductive PipeErr where
  | duplicateStage
  | stageFailure (e : Nat)
deriving DecidableEq

/-- The state of one stage task at the moment `asyncio.gather` settles:
completed without failure, completed with a failure, or not yet done. -/
inductive TaskState where
  | ok
  | failed (e : Nat)
  | pending
deriving DecidableEq

/-- Supervisory events of `create_pipeline`, in order: `taskCreated i`
when `asyncio.ensure_future(stage())` schedules stage `i` during wiring,
`stageStarted i` when the event loop first executes stage `i` (inside
`await asyncio.gather`), `cancelled i` when the except branch calls
`task.cancel()` on a task that is not done, and `waited t` for the
`asyncio.wait(pending, timeout=t)` call. -/
inductive PipeEvent where
  | taskCreated (i : Nat)
  | stageStarted (i : Nat)
  | cancelled (i : Nat)
  | waited (t : Nat)
deriving DecidableEq

/-- Embedding of the wiring loop of `create_pipeline`.  Stages are
identified by opaque handles (`Nat`), standing for object identity, which
is what the `history` set compares.  At position `i` the loop raises the
duplicate-stage `ValueError` if the stage was seen before, otherwise
allocates a fresh bounded channel of capacity `maxsize` as out-queue
unless the stage is the last one, connects the stage to the previous
out-queue and the new one, and schedules the stage task.  It returns the
trace of scheduling events and either the error or the list of
(inbound, outbound) connections, in stage order. -/
def wireGo (total maxsize : Nat) :
    List Nat → Nat → List Nat → Option Chan →
      List PipeEvent × Except PipeErr (List (Option Chan × Option Chan))
  | [], _, _, _ => ([], Except.ok [])
  | s :: rest, i, history, in_q =>
    if s ∈ history then ([], Except.error PipeErr.duplicateStage)
    else
      let out_q : Option Chan := if i < total - 1 then some ⟨i, maxsize⟩ else none
      let r := wireGo total maxsize rest (i + 1) (s :: history) out_q
      (PipeEvent.taskCreated i :: r.1,
        match r.2 with
        | Except.error e => Except.error e
        | Except.ok conns => Except.ok ((in_q, out_q) :: conns))

/-- The synchronous prefix of `create_pipeline` — everything before
`await asyncio.gather`: validate and wire the stage list. -/
def createPipelineSync (stages : List Nat) (maxsize : Nat) :
    List PipeEvent × Except PipeErr (List (Option Chan × Option Chan)) :=
  wireGo stages.length maxsize stages 0 [] none

/-- Whether a task is done (`task.done()`) at the moment gather settled. -/
def isDone : TaskState → Bool
  | TaskState.pending => false
  | _ => true

/-- The indices of the not-yet-done tasks, in task order, as collected by
the cancellation loop of `create_pipeline`. -/
def pendingIdx : List TaskState → Nat → List Nat
  | [], _ => []
  | t :: rest, i =>
    if isDone t then pendingIdx rest (i + 1) else i :: pendingIdx rest (i + 1)

/-- Embedding of the except branch of `create_pipeline` after gather
raised the failure `e`: cancel every task that is not done, wait with a
60 time-unit timeout when any task was cancelled, and re-raise the
original failure to the caller. -/
def superviseFail (ts : List TaskState) (e : Nat) :
    List PipeEvent × Except PipeErr Unit :=
  ((pendingIdx ts 0).map PipeEvent.cancelled ++
      (if (pendingIdx ts 0).isEmpty then [] else [PipeEvent.waited 60]),
    Except.error (PipeErr.stageFailure e))

/-- Embedding of `create_pipeline` as a whole.  `ts` is the state of each
stage task at the moment `asyncio.gather` settles and `gatherRes` the
exception gather raised, if any (an environment choice, constrained by
the hypotheses of the supervision theorem).  The result is the ordered
trace of supervisory events together with the outcome for the caller. -/
def createPipelineModel (stages : List Nat) (maxsize : Nat)
    (ts : List TaskState) (gatherRes : Option Nat) :
    List PipeEvent × Except PipeErr Unit :=
  match createPipelineSync stages maxsize with
  | (tr, Except.error e) => (tr, Except.error e)
  | (tr, Except.ok _) =>
    match gatherRes with
    | none => (tr ++ (List.range stages.length).map PipeEvent.stageStarted, Except.ok ())
    | some e =>
      (tr ++ (List.range stages.length).map PipeEvent.stageStarted ++
          (superviseFail ts e).1,
        (superviseFail ts e).2)

/-- The wiring loop only ever emits task-scheduling events: no stage body
runs and no channel traffic happens during the synchronous prefix. -/
lemma wireGo_trace (total maxsize : Nat) :
    ∀ (rest : List Nat) (i : Nat) (history : List Nat) (in_q : Option Chan),
      ∀ ev ∈ (wireGo total maxsize rest i history in_q).1,
        ∃ j, ev = PipeEvent.taskCreated j := by
  intro rest
  induction rest with
  | nil =>
    intro i history in_q ev hev
    simp [wireGo] at hev
  | cons s rest ih =>
    intro i history in_q ev hev
    by_cases hs : s ∈ history
    · simp [wireGo, hs] at hev
    · simp only [wireGo, hs, if_false, if_neg, not_false_iff] at hev
      rcases List.mem_cons.mp hev with h | h
      · exact ⟨i, h⟩
      · exact ih _ _ _ ev h

/-- A duplicate anywhere in (or against) the already-seen set makes the
wiring loop fail with the duplicate-stage error. -/
lemma wireGo_dup (total maxsize : Nat) :
    ∀ (rest : List Nat) (i : Nat) (history : List Nat) (in_q : Option Chan),
      (¬ rest.Nodup ∨ ∃ s ∈ rest, s ∈ history) →
      (wireGo total maxsize rest i history in_q).2 =
        Except.error PipeErr.duplicateStage := by
  intro rest
  induction rest with
  | nil =>
    intro i history in_q h
    rcases h with h | ⟨s, hs, _⟩
    · exact absurd List.nodup_nil h
    · simp at hs
  | cons s rest ih =>
    intro i history in_q h
    by_cases hs : s ∈ history
    · simp [wireGo, hs]
    · have hrec : ¬ rest.Nodup ∨ ∃ x ∈ rest, x ∈ s :: history := by
        rcases h with h | ⟨x, hx, hxh⟩
        · by_cases hsr : s ∈ rest
          · exact Or.inr ⟨s, hsr, List.mem_cons_self s history⟩
          · left
            intro hnd
            exact h (List.nodup_cons.mpr ⟨hsr, hnd⟩)
        · rcases List.mem_cons.mp hx with h1 | h1
          · exact absurd (h1 ▸ hxh) hs
          · exact Or.inr ⟨x, h1, List.mem_cons_of_mem s hxh⟩
      have hr := ih (i + 1) (s :: history)
        (if i < total - 1 then some ⟨i, maxsize⟩ else none) hrec
      simp [wireGo, hs, hr]

/-- The chain of (inbound, outbound) connections that the wiring loop
builds from position `i` onwards for `n` further stages, threading the
out-queue of each stage into the in-queue of the next. -/
def chainConns (total maxsize : Nat) : Nat → Option Chan → Nat →
    List (Option Chan × Option Chan)
  | _, _, 0 => []
  | i, in_q, n + 1 =>
    (in_q, if i < total - 1 then some ⟨i, maxsize⟩ else none) ::
      chainConns total maxsize (i + 1)
        (if i < total - 1 then some ⟨i, maxsize⟩ else none) n

/-- On a duplicate-free stage list the wiring loop succeeds and returns
the threaded chain of connections. -/
lemma wireGo_ok (total maxsize : Nat) :
    ∀ (rest : List Nat) (i : Nat) (history : List Nat) (in_q : Option Chan),
      rest.Nodup → (∀ s ∈ rest, s ∉ history) →
      (wireGo total maxsize rest i history in_q).2 =
        Except.ok (chainConns total maxsize i in_q rest.length) := by
  intro rest
  induction rest with
  | nil =>
    intro i history in_q _ _
    simp [wireGo, chainConns]
  | cons s rest ih =>
    intro i history in_q h1 h2
    have hs : s ∉ history := h2 s (List.mem_cons_self s rest)
    rw [List.nodup_cons] at h1
    have h2r : ∀ x ∈ rest, x ∉ s :: history := by
      intro x hx hmem
      rcases List.mem_cons.mp hmem with h4 | h4
      · exact h1.1 (h4 ▸ hx)
      · exact h2 x (List.mem_cons_of_mem s hx) h4
    have hrec := ih (i + 1) (s :: history)
      (if i < total - 1 then some ⟨i, maxsize⟩ else none) h1.2 h2r
    simp [wireGo, chainConns, hs, hrec]

/-- The wiring shape stated by the spec: stage `j` of `total` reads from
channel `j - 1` (no inbound for the first stage) and writes to channel
`j` (no outbound for the last stage), every channel having capacity
`maxsize`.  This definition follows the spec's words, to be compared with
the wiring the code computes. -/
def specConns (total maxsize : Nat) : List (Option Chan × Option Chan) :=
  (List.range' 0 total).map fun j =>
    ((if j = 0 then none else some ⟨j - 1, maxsize⟩),
      (if j + 1 < total then some ⟨j, maxsize⟩ else none))

/-- The threaded chain built by the loop coincides with the positional
description of the spec. -/
lemma chainConns_eq (total maxsize : Nat) :
    ∀ (n i : Nat) (in_q : Option Chan), i + n = total →
      in_q = (if i = 0 then none else some ⟨i - 1, maxsize⟩) →
      chainConns total maxsize i in_q n =
        (List.range' i n).map fun j =>
          ((if j = 0 then none else some ⟨j - 1, maxsize⟩),
            (if j + 1 < total then some ⟨j, maxsize⟩ else none)) := by
  intro n
  induction n with
  | zero =>
    intro i in_q h1 h2
    simp [chainConns, List.range']
  | succ n ih =>
    intro i in_q h1 h2
    simp only [chainConns, List.range', List.map_cons]
    congr 1
    · rw [h2]
      by_cases hlt : i + 1 < total
      · rw [if_pos hlt, if_pos (show i < total - 1 by omega)]
      · rw [if_neg hlt, if_neg (show ¬ i < total - 1 by omega)]
    · cases n with
      | zero => simp [chainConns, List.range']
      | succ m =>
        have hc : i < total - 1 := by omega
        rw [if_pos hc]
        have hrec := ih (i + 1) (some ⟨i, maxsize⟩) (by omega) (by simp)
        exact hrec

/-- The out-queues of the spec wiring are exactly the channels
`0, …, total - 2`, each of capacity `maxsize`. -/
lemma filterMap_out (maxsize : Nat) :
    ∀ (n s total : Nat), s + n = total →
      (List.range' s n).filterMap
          (fun j => if j + 1 < total then some (⟨j, maxsize⟩ : Chan) else none) =
        (List.range' s (n - 1)).map (fun j => (⟨j, maxsize⟩ : Chan)) := by
  intro n
  induction n with
  | zero =>
    intro s total h
    simp
  | succ n ih =>
    intro s total h
    simp only [List.range']
    cases n with
    | zero =>
      have hlt : ¬ (s + 1 < total) := by omega
      simp [hlt]
    | succ m =>
      have hcond : s + 1 < total := by omega
      have ih2 := ih (s + 1) total (by omega)
      simp only [List.filterMap_cons, hcond, if_pos, ih2]
      simp [List.range', hcond]

/-- Every not-yet-done task index is collected by the cancellation
loop. -/
lemma pendingIdx_mem :
    ∀ (ts : List TaskState) (base j : Nat), ts.get? j = some TaskState.pending →
      (base + j) ∈ pendingIdx ts base := by
  intro ts
  induction ts with
  | nil =>
    intro base j h
    simp at h
  | cons t rest ih =>
    intro base j h
    cases j with
    | zero =>
      simp at h
      subst h
      simp [pendingIdx, isDone]
    | succ m =>
      have h2 := ih (base + 1) m (by simpa using h)
      have hb : base + (m + 1) = (base + 1) + m := by omega
      rw [hb]
      by_cases ht : isDone t
      · simpa [pendingIdx, ht] using h2
      · simp only [pendingIdx, ht, Bool.false_eq_true, if_false]
        exact List.mem_cons_of_mem _ h2

/-- C3: when the same stage instance appears at two distinct positions
(the list of identity handles has a duplicate), `create_pipeline` raises
the duplicate-stage `ValueError` and its trace contains only
task-scheduling events: no stage task ever starts executing, nothing is
cancelled or awaited, and — since channel traffic only happens inside
executing stages — no channel traffic occurs. -/
theorem create_pipeline_duplicate_rejected (stages : List Nat) (maxsize : Nat)
    (ts : List TaskState) (gr : Option Nat) (h : ¬ stages.Nodup) :
    (createPipelineModel stages maxsize ts gr).2 = Except.error PipeErr.duplicateStage ∧
    ∀ ev ∈ (createPipelineModel stages maxsize ts gr).1,
      ∃ i, ev = PipeEvent.taskCreated i := by
  have herr := wireGo_dup stages.length maxsize stages 0 [] none (Or.inl h)
  have htr := wireGo_trace stages.length maxsize stages 0 [] none
  obtain ⟨tr, res, hp⟩ :
      ∃ t r, wireGo stages.length maxsize stages 0 [] none = (t, r) := ⟨_, _, rfl⟩
  rw [hp] at herr htr
  simp only at herr
  subst herr
  constructor
  · simp [createPipelineModel, createPipelineSync, hp]
  · intro ev hev
    simp only [createPipelineModel, createPipelineSync, hp] at hev
    exact htr ev hev

/-- C1: when a stage task finishes with a failure (so gather raises it),
`create_pipeline` cancels every stage task that is not yet finished,
performs the `asyncio.wait` with the 60 time-unit timeout on the
cancelled tasks, and re-raises the original failure to its caller; and it
completes normally only when gather raised nothing, which under the
gather semantics means every stage finished without failure — there is no
partial success. -/
theorem create_pipeline_failure_supervision (stages : List Nat) (maxsize : Nat)
    (ts : List TaskState) (gr : Option Nat)
    (hnd : stages.Nodup)
    (hgnone : gr = none → ∀ t ∈ ts, t = TaskState.ok)
    (hgsome : ∀ e, gr = some e → ∃ i, ts.get? i = some (TaskState.failed e)) :
    (∀ e, gr = some e →
      (createPipelineModel stages maxsize ts gr).2 =
          Except.error (PipeErr.stageFailure e) ∧
      (∀ i, ts.get? i = some TaskState.pending →
        PipeEvent.cancelled i ∈ (createPipelineModel stages maxsize ts gr).1) ∧
      ((∃ i, ts.get? i = some TaskState.pending) →
        PipeEvent.waited 60 ∈ (createPipelineModel stages maxsize ts gr).1)) ∧
    ((createPipelineModel stages maxsize ts gr).2 = Except.ok () →
      gr = none ∧ ∀ t ∈ ts, t = TaskState.ok) := by
  obtain ⟨tr, res, hp⟩ :
      ∃ t r, wireGo stages.length maxsize stages 0 [] none = (t, r) := ⟨_, _, rfl⟩
  have hok := wireGo_ok stages.length maxsize stages 0 [] none hnd (by simp)
  rw [hp] at hok
  simp only at hok
  subst hok
  constructor
  · intro e hge
    subst hge
    simp only [createPipelineModel, createPipelineSync, hp]
    refine ⟨rfl, ?_, ?_⟩
    · intro i hi
      have hmem := pendingIdx_mem ts 0 i hi
      have h1 : PipeEvent.cancelled i ∈ (pendingIdx ts 0).map PipeEvent.cancelled :=
        List.mem_map_of_mem _ (by simpa using hmem)
      have h2 : PipeEvent.cancelled i ∈ (superviseFail ts e).1 := by
        simp only [superviseFail]
        exact List.mem_append.mpr (Or.inl h1)
      exact List.mem_append.mpr (Or.inr h2)
    · rintro ⟨i, hi⟩
      have hmem := pendingIdx_mem ts 0 i hi
      have hne : (pendingIdx ts 0).isEmpty = false := by
        cases hpe : pendingIdx ts 0 with
        | nil =>
          rw [hpe] at hmem
          simp at hmem
        | cons a l => rfl
      have h2 : PipeEvent.waited 60 ∈ (superviseFail ts e).1 := by
        simp [superviseFail, hne]
      exact List.mem_append.mpr (Or.inr h2)
  · intro hres
    cases hgr : gr with
    | none => exact ⟨rfl, hgnone hgr⟩
    | some e =>
      exfalso
      rw [hgr] at hres
      simp [createPipelineModel, createPipelineSync, hp, superviseFail] at hres

/-- C8: on a duplicate-free list of `N` stages, `create_pipeline` wires
stage `i`'s outbound channel to be the very channel that is stage
`i + 1`'s inbound channel, gives the first stage no inbound and the last
stage no outbound, and the channels it allocates are exactly the `N - 1`
bounded channels `0, …, N - 2`, each of the given capacity. -/
theorem create_pipeline_wiring (stages : List Nat) (maxsize : Nat)
    (hnd : stages.Nodup) :
    (createPipelineSync stages maxsize).2 =
        Except.ok (specConns stages.length maxsize) ∧
    (specConns stages.length maxsize).filterMap Prod.snd =
      (List.range' 0 (stages.length - 1)).map (fun j => (⟨j, maxsize⟩ : Chan)) := by
  constructor
  · have hok := wireGo_ok stages.length maxsize stages 0 [] none hnd (by simp)
    have heq := chainConns_eq stages.length maxsize stages.length 0 none
      (by omega) (by simp)
    show (wireGo stages.length maxsize stages 0 [] none).2 = _
    rw [hok, heq]
    rfl
  · simp only [specConns]
    rw [List.filterMap_map]
    have hcomp : (Prod.snd ∘ fun j =>
        ((if j = 0 then none else some (⟨j - 1, maxsize⟩ : Chan)),
          (if j + 1 < stages.length then some (⟨j, maxsize⟩ : Chan) else none))) =
        fun j => if j + 1 < stages.length then some (⟨j, maxsize⟩ : Chan) else none := by
      funext j
      rfl
    rw [hcomp]
    exact filterMap_out maxsize stages.length 0 stages.length (by omega)

/-- Witness for the force-flush theorem at a concrete input: one
non-batchable item in a round, batch far below the minimum size. -/
theorem batches_force_flush_witness :
    (drainLoop (([] : List Nat).headD 0)
        (add_to_batch ⟨[], false, false⟩ (some (⟨0, false⟩ : DeclarativeContent)))
        [none]).1.batch ≠ [] ∧
    (batchesModel 50 (some (⟨0, false⟩ : DeclarativeContent) :: [none]) [] [] false).head? =
      some (drainLoop (([] : List Nat).headD 0)
        (add_to_batch ⟨[], false, false⟩ (some (⟨0, false⟩ : DeclarativeContent)))
        [none]).1.batch :=
  batches_force_flush 50 [] [] (some ⟨0, false⟩) [none] (by decide)

/-- Witness for the single-emission theorem at a concrete input. -/
theorem batches_single_emit_on_end_and_flush_witness :
    ((drainLoop (([1] : List Nat).headD 0)
        (add_to_batch ⟨[], false, false⟩ (some (⟨0, false⟩ : DeclarativeContent)))
        (none :: [])).1.shutdown = true ∧
      (drainLoop (([1] : List Nat).headD 0)
        (add_to_batch ⟨[], false, false⟩ (some (⟨0, false⟩ : DeclarativeContent)))
        (none :: [])).1.no_block = true) ∧
    batchesModel 50 (some (⟨0, false⟩ : DeclarativeContent) :: none :: []) [1] [] false =
      [[] ++ [(⟨0, false⟩ : DeclarativeContent)]] :=
  batches_single_emit_on_end_and_flush 50 [1] [] ⟨0, false⟩ [] (by decide) (by decide)

/-- Witness for the carry invariant at a concrete reachable carry: one
batchable item retained after a round without emission. -/
theorem batches_carry_small_and_batchable_witness :
    (∀ c ∈ [(⟨0, true⟩ : DeclarativeContent)], c.does_batch = true) ∧
      [(⟨0, true⟩ : DeclarativeContent)].length < 50 :=
  batches_carry_small_and_batchable 50 [⟨0, true⟩] false
    (CarryReach.step [] false (some ⟨0, true⟩) [] 0 CarryReach.init
      (by decide) (by decide))
    (by decide)

/-- Witness for the `put` contract at the sentinel input. -/
theorem put_rejects_sentinel_only_witness :
    ((putModel [] none).2 = some PutErr.noneNotPermitted ↔
        (none : Option DeclarativeContent) = none) ∧
    ((none : Option DeclarativeContent) = none → (putModel [] none).1 = []) ∧
    (∀ c, (none : Option DeclarativeContent) = some c →
      (putModel [] none).1 = [] ++ [some c]) :=
  put_rejects_sentinel_only [] none

/-- Witness for the duplicate rejection at a concrete duplicated list. -/
theorem create_pipeline_duplicate_rejected_witness :
    (createPipelineModel [5, 5] 100 [] none).2 = Except.error PipeErr.duplicateStage ∧
    ∀ ev ∈ (createPipelineModel [5, 5] 100 [] none).1,
      ∃ i, ev = PipeEvent.taskCreated i :=
  create_pipeline_duplicate_rejected [5, 5] 100 [] none (by decide)

/-- Witness for the failure supervision at a concrete run: stage 0 failed
with error 7 while stage 1 was still pending when gather settled. -/
theorem create_pipeline_failure_supervision_witness :
    (∀ e, (some 7 : Option Nat) = some e →
      (createPipelineModel [3, 4] 100 [TaskState.failed 7, TaskState.pending]
          (some 7)).2 = Except.error (PipeErr.stageFailure e) ∧
      (∀ i, [TaskState.failed 7, TaskState.pending].get? i = some TaskState.pending →
        PipeEvent.cancelled i ∈
          (createPipelineModel [3, 4] 100 [TaskState.failed 7, TaskState.pending]
            (some 7)).1) ∧
      ((∃ i, [TaskState.failed 7, TaskState.pending].get? i = some TaskState.pending) →
        PipeEvent.waited 60 ∈
          (createPipelineModel [3, 4] 100 [TaskState.failed 7, TaskState.pending]
            (some 7)).1)) ∧
    ((createPipelineModel [3, 4] 100 [TaskState.failed 7, TaskState.pending]
        (some 7)).2 = Except.ok () →
      (some 7 : Option Nat) = none ∧
        ∀ t ∈ [TaskState.failed 7, TaskState.pending], t = TaskState.ok) :=
  create_pipeline_failure_supervision [3, 4] 100
    [TaskState.failed 7, TaskState.pending] (some 7)
    (by decide)
    (by intro h2; simp at h2)
    (by
      intro e he
      injection he with h2
      subst h2
      exact ⟨0, rfl⟩)

/-- Witness for the wiring theorem on a concrete three-stage list. -/
theorem create_pipeline_wiring_witness :
    (createPipelineSync [0, 1, 2] 100).2 = Except.ok (specConns 3 100) ∧
    (specConns 3 100).filterMap Prod.snd =
      (List.range' 0 2).map (fun j => (⟨j, 100⟩ : Chan)) :=
  create_pipeline_wiring [0, 1, 2] 100 (by decide)

end PulpStages
